import Mathlib

/-!
Verification of the resilient LLM request/response pipeline of
TAI-EvalGenTCS (`src/services/llm_client.py` and
`src/agents/test_analyzer_agent.py`).

Strings are modelled as lists of characters (`Str`), matching Python's
iteration over code points.  The remote chat call is abstracted as an
oracle giving the outcome of each attempt; everything that the Python
code computes from those outcomes (retry loop, backoff delays, response
sanitization, JSON parsing, truncation repair, extraction) is translated
directly from the source.
-/

abbrev Str := List Char

/-- Characters stripped by Python's `str.strip()` (ASCII whitespace). -/
def pyIsSpace (c : Char) : Bool :=
  c = ' ' || c = '\t' || c = '\n' || c = '\r' || c = '\x0b' || c = '\x0c'

/-- Left part of Python `str.strip()`. -/
def lstripL (l : Str) : Str := l.dropWhile pyIsSpace

/-- Right part of Python `str.strip()`. -/
def rstripL (l : Str) : Str := (l.reverse.dropWhile pyIsSpace).reverse

/-- Python `str.strip()` on the character-list model. -/
def pyStrip (l : Str) : Str := rstripL (lstripL l)

/-- First reassignment of `_sanitize_json_response`: remove one leading
code-block marker (` ```json ` else ` ``` `) if present. -/
def dropLeadFence (cleaned : Str) : Str :=
  if ("```json".data).isPrefixOf cleaned then cleaned.drop 7
  else if ("```".data).isPrefixOf cleaned then cleaned.drop 3
  else cleaned

/-- Second reassignment of `_sanitize_json_response`: remove one trailing
` ``` ` marker if present (`cleaned[:-3]`). -/
def dropTrailFence (cleaned : Str) : Str :=
  if ("```".data).isSuffixOf cleaned then cleaned.take (cleaned.length - 3)
  else cleaned

/-- Model of `LLMClient._sanitize_json_response`: strip surrounding whitespace, one
leading code-fence marker, one trailing code-fence marker, then strip again. -/
def _sanitize_json_response (response : Str) : Str :=
  pyStrip (dropTrailFence (dropLeadFence (pyStrip response)))

/-! ## The retry loop of `LLMClient.generate_completion` -/

/-- The retry configuration returned by `Settings.get_retry_config`. -/
structure RetryConfig where
  attempts : Nat
  delay : ℚ
  backoff_factor : ℚ

/-- Backoff delay `retry_config['delay'] * retry_config['backoff_factor'] ** attempt`. -/
def backoffDelay (cfg : RetryConfig) (attempt : Nat) : ℚ :=
  cfg.delay * cfg.backoff_factor ^ attempt

/-- Outcome of one remote chat-completion call: a transport/remote error, or a
response whose message content is `None` or some string. -/
inductive CallOutcome where
  | transportError (msg : String)
  | success (content : Option Str)

/-- Errors that one iteration of the retry loop can raise. -/
inductive AttemptErr where
  | transport (msg : String)
  | emptyResponse
deriving DecidableEq

/-- Body of one iteration of the `for attempt in range(...)` loop in
`generate_completion`: issue the call and reject `None`/blank content
(`content is None or content.strip() == ""` raises `ValueError`). -/
def attemptOutcome : CallOutcome → Except AttemptErr Str
  | .transportError msg => .error (.transport msg)
  | .success none => .error .emptyResponse
  | .success (some c) => if pyStrip c = [] then .error .emptyResponse else .ok c

/-- What a run of `generate_completion` produces: a returned string, a raised
error, or the implicit `None` return when the loop body never runs. -/
inductive RunResult where
  | ok (content : Str)
  | raised (err : AttemptErr)
  | returnedNone
deriving DecidableEq

/-- Observable trace of a run: how many remote calls were issued, which
backoff delays were slept (in order), and the final result. -/
structure Trace where
  calls : Nat
  delays : List ℚ
  result : RunResult
deriving DecidableEq

/-- The retry loop of `generate_completion` from iteration `attempt` on:
on failure, if `attempt < attempts - 1`, sleep `delay * backoff_factor ** attempt`
and continue; otherwise re-raise. -/
def genLoop (cfg : RetryConfig) (oracle : Nat → CallOutcome) (attempt : Nat) : Trace :=
  match attemptOutcome (oracle attempt) with
  | .ok c => ⟨1, [], .ok c⟩
  | .error e =>
    if _h : attempt < cfg.attempts - 1 then
      let rest := genLoop cfg oracle (attempt + 1)
      ⟨rest.calls + 1, backoffDelay cfg attempt :: rest.delays, rest.result⟩
    else
      ⟨1, [], .raised e⟩
termination_by cfg.attempts - attempt
decreasing_by omega

/-- Model of `LLMClient.generate_completion`: run the retry loop from attempt 0; with
zero configured attempts the loop body never runs and Python returns `None`. -/
def generate_completion (cfg : RetryConfig) (oracle : Nat → CallOutcome) : Trace :=
  if cfg.attempts = 0 then ⟨0, [], .returnedNone⟩ else genLoop cfg oracle 0

example : pyStrip "  a b\n".data = "a b".data := by decide

example : _sanitize_json_response "```json\n\x7b\"x\":1\x7d\n```".data = "\x7b\"x\":1\x7d".data := by
  decide

/-! ## A model of Python's `json.loads`

`generate_json_completion` and `_extract_json_from_text` call the standard
`json` module.  The decoder below follows `json/decoder.py` (strict mode):
the same value grammar and the same error classification, which matters
because the except-handler of `generate_json_completion` branches on the
"Unterminated string" / "Expecting property name" message fragments. -/

/-- Parsed JSON values.  Number and string payloads keep their source text,
which is all the client ever propagates. -/
inductive JVal where
  | jnull
  | jbool (b : Bool)
  | jnum (text : Str)
  | jstr (raw : Str)
  | jarr (elems : List JVal)
  | jobj (members : List (Str × JVal))

/-- Returns `true` exactly for a decoded top-level JSON object (a Python `dict`). -/
def JVal.isObj : JVal → Bool
  | .jobj _ => true
  | _ => false

/-- The `json.JSONDecodeError` classification relevant to the client, plus the
two errors `generate_json_completion` itself raises for empty payloads. -/
inductive JErr where
  | expectingValue
  | unterminatedString
  | invalidControlChar
  | invalidEscape
  | expectingPropertyName
  | expectingColon
  | expectingComma
  | extraData
  | emptyResponse
  | emptyAfterSanitize
deriving DecidableEq

/-- Hexadecimal digit test used by the `\uXXXX` escape check. -/
def isHexChar (c : Char) : Bool :=
  c.isDigit || ('a' ≤ c && c ≤ 'f') || ('A' ≤ c && c ≤ 'F')

/-- JSON whitespace skipped by the decoder (`' \t\n\r'`). -/
def jsonWs (c : Char) : Bool := c = ' ' || c = '\t' || c = '\n' || c = '\r'

/-- Skip JSON whitespace. -/
def skip_ws (s : Str) : Str := s.dropWhile jsonWs

/-- Model of `py_scanstring` after the opening quote: raw chunk up to the closing
quote, rejecting control characters and malformed escapes, with
"Unterminated string" when the input ends first. -/
def py_scanstring : Str → Except JErr (Str × Str)
  | [] => .error .unterminatedString
  | c :: rest =>
    if c = '"' then .ok ([], rest)
    else if c = '\\' then
      match rest with
      | [] => .error .unterminatedString
      | e :: rest2 =>
        if e = 'u' then
          match rest2 with
          | h1 :: h2 :: h3 :: h4 :: rest3 =>
            if isHexChar h1 && isHexChar h2 && isHexChar h3 && isHexChar h4 then
              match py_scanstring rest3 with
              | .ok (content, r) => .ok ('\\' :: 'u' :: h1 :: h2 :: h3 :: h4 :: content, r)
              | .error err => .error err
            else .error .invalidEscape
          | _ => .error .invalidEscape
        else if e = '"' || e = '\\' || e = '/' || e = 'b' || e = 'f' ||
                e = 'n' || e = 'r' || e = 't' then
          match py_scanstring rest2 with
          | .ok (content, r) => .ok ('\\' :: e :: content, r)
          | .error err => .error err
        else .error .invalidEscape
    else if c.toNat < 0x20 then .error .invalidControlChar
    else
      match py_scanstring rest with
      | .ok (content, r) => .ok (c :: content, r)
      | .error err => .error err

/-- Longest digit run at the head of the input. -/
def spanDigits (s : Str) : Str × Str := (s.takeWhile Char.isDigit, s.dropWhile Char.isDigit)

/-- Integer part of the number regex: `0|[1-9]\d*`. -/
def matchInt : Str → Option (Str × Str)
  | [] => none
  | c :: rest =>
    if c = '0' then some ([c], rest)
    else if c.isDigit then
      let (ds, r) := spanDigits rest
      some (c :: ds, r)
    else none

/-- Optional fraction group `(\.\d+)?` of the number regex. -/
def matchFrac (s : Str) : Str × Str :=
  match s with
  | '.' :: rest =>
    let (ds, r) := spanDigits rest
    if ds = [] then ([], s) else ('.' :: ds, r)
  | _ => ([], s)

/-- Optional exponent group `([eE][-+]?\d+)?` of the number regex. -/
def matchExp (s : Str) : Str × Str :=
  match s with
  | c :: rest =>
    if c = 'e' || c = 'E' then
      let (sgn, rest2) :=
        match rest with
        | s2 :: r2 => if s2 = '+' || s2 = '-' then ([s2], r2) else (([] : Str), rest)
        | [] => (([] : Str), rest)
      let (ds, r) := spanDigits rest2
      if ds = [] then ([], s) else (c :: (sgn ++ ds), r)
    else ([], s)
  | [] => ([], s)

/-- The decoder's `NUMBER_RE`: `(-?(?:0|[1-9]\d*))(\.\d+)?([eE][-+]?\d+)?`. -/
def matchNumber (s : Str) : Option (Str × Str) :=
  match s with
  | '-' :: rest =>
    match matchInt rest with
    | some (ip, r1) =>
      let (f, r2) := matchFrac r1
      let (ex, r3) := matchExp r2
      some ('-' :: (ip ++ f ++ ex), r3)
    | none => none
  | _ =>
    match matchInt s with
    | some (ip, r1) =>
      let (f, r2) := matchFrac r1
      let (ex, r3) := matchExp r2
      some (ip ++ f ++ ex, r3)
    | none => none

mutual

/-- Model of `scan_once`: one JSON value at the head of the (non-whitespace) input. -/
def scan_once : Nat → Str → Except JErr (JVal × Str)
  | 0, _ => .error .expectingValue
  | fuel + 1, s =>
    match s with
    | [] => .error .expectingValue
    | c :: rest =>
      if c = '"' then
        match py_scanstring rest with
        | .ok (content, r) => .ok (.jstr content, r)
        | .error e => .error e
      else if c = '{' then JSONObject fuel (skip_ws rest)
      else if c = '[' then JSONArray fuel (skip_ws rest)
      else if ("null".data).isPrefixOf s then .ok (.jnull, s.drop 4)
      else if ("true".data).isPrefixOf s then .ok (.jbool true, s.drop 4)
      else if ("false".data).isPrefixOf s then .ok (.jbool false, s.drop 5)
      else
        match matchNumber s with
        | some (txt, r) => .ok (.jnum txt, r)
        | none =>
          if ("NaN".data).isPrefixOf s then .ok (.jnum ("NaN".data), s.drop 3)
          else if ("Infinity".data).isPrefixOf s then .ok (.jnum ("Infinity".data), s.drop 8)
          else if ("-Infinity".data).isPrefixOf s then .ok (.jnum ("-Infinity".data), s.drop 9)
          else .error .expectingValue

/-- Model of `JSONObject` after `{` and whitespace. -/
def JSONObject : Nat → Str → Except JErr (JVal × Str)
  | 0, _ => .error .expectingValue
  | fuel + 1, s =>
    match s with
    | '}' :: rest => .ok (.jobj [], rest)
    | '"' :: rest => JSONObjectMembers fuel rest []
    | _ => .error .expectingPropertyName

/-- The `JSONObject` member loop, entered after each key's opening quote. -/
def JSONObjectMembers : Nat → Str → List (Str × JVal) → Except JErr (JVal × Str)
  | 0, _, _ => .error .expectingValue
  | fuel + 1, s, acc =>
    match py_scanstring s with
    | .error e => .error e
    | .ok (key, r1) =>
      match skip_ws r1 with
      | ':' :: r2 =>
        match scan_once fuel (skip_ws r2) with
        | .error e => .error e
        | .ok (v, r3) =>
          match skip_ws r3 with
          | '}' :: r4 => .ok (.jobj (((key, v) :: acc).reverse), r4)
          | ',' :: r4 =>
            match skip_ws r4 with
            | '"' :: r5 => JSONObjectMembers fuel r5 ((key, v) :: acc)
            | _ => .error .expectingPropertyName
          | _ => .error .expectingComma
      | _ => .error .expectingColon

/-- Model of `JSONArray` after `[` and whitespace. -/
def JSONArray : Nat → Str → Except JErr (JVal × Str)
  | 0, _ => .error .expectingValue
  | fuel + 1, s =>
    match s with
    | ']' :: rest => .ok (.jarr [], rest)
    | _ => JSONArrayElems fuel s []

/-- The `JSONArray` element loop, entered at each element's first character. -/
def JSONArrayElems : Nat → Str → List JVal → Except JErr (JVal × Str)
  | 0, _, _ => .error .expectingValue
  | fuel + 1, s, acc =>
    match scan_once fuel s with
    | .error e => .error e
    | .ok (v, r1) =>
      match skip_ws r1 with
      | ']' :: r2 => .ok (.jarr ((v :: acc).reverse), r2)
      | ',' :: r2 => JSONArrayElems fuel (skip_ws r2) (v :: acc)
      | _ => .error .expectingComma

end

/-- Model of `json.loads`: skip whitespace, decode one value, reject trailing data.
The fuel bound exceeds the number of decoder calls any input can make. -/
def json_loads (s : Str) : Except JErr JVal :=
  match scan_once (2 * s.length + 4) (skip_ws s) with
  | .error e => .error e
  | .ok (v, rest) => if skip_ws rest = [] then .ok v else .error .extraData

/-- Whether `json.loads` succeeds on the input. -/
def jsonValid (s : Str) : Bool := (json_loads s).isOk

example : (json_loads ("\x7b\"a\": \x7b\"b\": 1\x7d, \"c\": [1,2,3]\x7d".data)).isOk = true := by rfl

example : json_loads ("\x7b\"a\": 1,".data) = .error .expectingPropertyName := by rfl

example : json_loads ("\x7b\"a\": \"xy".data) = .error .unterminatedString := by rfl

example : json_loads ("\x7b\"a\": [1, 2,".data) = .error .expectingValue := by rfl

example : (json_loads ("[1, 2]".data)).isOk = true := by rfl

example : json_loads ("\x7b\"a\":\x7d".data) = .error .expectingValue := by rfl

/-! ## `LLMClient._repair_truncated_json` -/

/-- The scanner state of `_repair_truncated_json` (`brace_count`,
`bracket_count`, `in_string`, `escape_next`, `last_valid_pos`). -/
structure RepairSt where
  brace_count : Int
  bracket_count : Int
  in_string : Bool
  escape_next : Bool
  last_valid_pos : Int
deriving DecidableEq

/-- Initial scanner state (`last_valid_pos = -1`). -/
def repairInit : RepairSt := ⟨0, 0, false, false, -1⟩

/-- One iteration of the `for i, char in enumerate(json_str)` loop. -/
def repairStep (st : RepairSt) (i : Nat) (c : Char) : RepairSt :=
  if st.escape_next then { st with escape_next := false }
  else if c = '\\' then { st with escape_next := true }
  else if c = '"' && !st.in_string then { st with in_string := true }
  else if c = '"' && st.in_string then { st with in_string := false }
  else if !st.in_string then
    if c = '{' then { st with brace_count := st.brace_count + 1 }
    else if c = '}' then
      { st with brace_count := st.brace_count - 1,
                last_valid_pos :=
                  if st.brace_count - 1 = 0 then ((i : Int) + 1) else st.last_valid_pos }
    else if c = '[' then { st with bracket_count := st.bracket_count + 1 }
    else if c = ']' then { st with bracket_count := st.bracket_count - 1 }
    else st
  else st

/-- Run the repair scanner over the remaining characters, `i` being the
index of the first of them in the whole input. -/
def repairScan : RepairSt → Nat → Str → RepairSt
  | st, _, [] => st
  | st, i, c :: cs => repairScan (repairStep st i c) (i + 1) cs

/-- Model of `LLMClient._repair_truncated_json`: truncate at `last_valid_pos` when the
scan found one (`> 0`), otherwise no repair. -/
def _repair_truncated_json (json_str : Str) : Option Str :=
  let st := repairScan repairInit 0 json_str
  if st.last_valid_pos > 0 then some (json_str.take st.last_valid_pos.toNat) else none

/-! ## `LLMClient._extract_json_from_text` -/

/-- The `for i, char in enumerate(text)` loop of `_extract_json_from_text`,
parameterized by the validity check applied to each candidate substring
(the source uses `json.loads`).  State: `brace_count` and `start_index`
(`-1` when unset). -/
def extractLoop (valid : Str → Bool) (text : Str) :
    Str → Nat → Int → Int → Option Str
  | [], _, _, _ => none
  | c :: cs, i, brace_count, start_index =>
    if c = '{' then
      extractLoop valid text cs (i + 1) (brace_count + 1)
        (if brace_count = 0 then (i : Int) else start_index)
    else if c = '}' then
      let brace1 := brace_count - 1
      if brace1 = 0 ∧ start_index ≠ -1 then
        let cand := (text.drop start_index.toNat).take (i + 1 - start_index.toNat)
        if valid cand then some cand
        else extractLoop valid text cs (i + 1) brace1 (-1)
      else extractLoop valid text cs (i + 1) brace1 start_index
    else extractLoop valid text cs (i + 1) brace_count start_index

/-- Model of `LLMClient._extract_json_from_text`. -/
def _extract_json_from_text (text : Str) : Option Str :=
  extractLoop jsonValid text text 0 0 (-1)

/-! ## `LLMClient.generate_json_completion` (parsing stage) -/

/-- The truncation test of the except-handler:
`"Unterminated string" in str(e) or "Expecting property name" in str(e)`. -/
def keywordTriggers (e : JErr) : Bool :=
  e = .unterminatedString || e = .expectingPropertyName

/-- The `except json.JSONDecodeError` handler of `generate_json_completion`:
repair (only for truncation signatures), then extraction from the original
response, then re-raise the original error. -/
def jsonExceptHandler (response cleaned : Str) (e : JErr) : Except JErr JVal :=
  let repairedResult : Option JVal :=
    if keywordTriggers e then
      match _repair_truncated_json cleaned with
      | some rep =>
        match json_loads rep with
        | .ok v => some v
        | .error _ => none
      | none => none
    else none
  match repairedResult with
  | some v => .ok v
  | none =>
    match _extract_json_from_text response with
    | some extracted => json_loads extracted
    | none => .error e

/-- The body of `generate_json_completion` applied to the string that
`generate_completion` returned: empty checks, sanitization, parse, and the
repair/extraction cascade on parse failure.  In the first branch the
`cleaned_response` local of the source is not yet bound; the handler never
reads it there because the empty-response error has no truncation
signature, so `[]` stands in for the unbound local. -/
def generate_json_completion_post (response : Str) : Except JErr JVal :=
  if response.isEmpty || (pyStrip response).isEmpty then
    jsonExceptHandler response [] .emptyResponse
  else
    let cleaned := _sanitize_json_response response
    if cleaned.isEmpty || (pyStrip cleaned).isEmpty then
      jsonExceptHandler response cleaned .emptyAfterSanitize
    else
      match json_loads cleaned with
      | .ok v => .ok v
      | .error e => jsonExceptHandler response cleaned e

/-! ## `TestAnalyzerAgent.analyze_test_class` (fallback structure)

The agent builds a system prompt, a user message and a JSON schema, then
calls `generate_json_completion`; the client is abstracted as a function of
the schema argument (the prompts are fixed across both calls).  The first
component records the schema argument of each call issued, in order. -/

/-- Model of `analyze_test_class`: one call with the strict schema; on any exception,
exactly one retry with `json_schema=None`, whose outcome is returned. -/
def analyze_test_class {σ ε ρ : Type} (client : Option σ → Except ε ρ)
    (json_schema : σ) : List (Option σ) × Except ε ρ :=
  match client (some json_schema) with
  | .ok r => ([some json_schema], .ok r)
  | .error _ => ([some json_schema, none], client none)

/-! ## `RateLimiter.__init__` -/

/-- The fields a constructed `RateLimiter` holds. -/
structure RateLimiter where
  requests_per_minute : Int
  min_interval : ℚ
  last_request_time : ℚ
deriving DecidableEq

/-- Model of `RateLimiter.__init__`: `min_interval = 60.0 / requests_per_minute`,
where Python's division raises `ZeroDivisionError` on a zero divisor. -/
def RateLimiter.init (requests_per_minute : Int) : Except String RateLimiter :=
  if requests_per_minute = 0 then .error "ZeroDivisionError: float division by zero"
  else .ok ⟨requests_per_minute, 60 / (requests_per_minute : ℚ), 0⟩

example : _repair_truncated_json ("\x7b\"a\": \x7b\"b\": 1\x7d, \"c\": [1,2,3".data) = none := by rfl

example : _repair_truncated_json ("\x7b\"a\": 1\x7d tail".data) = some ("\x7b\"a\": 1\x7d".data) := by rfl

example : _extract_json_from_text ("blah \x7b\"a\":\x7d blah \x7b\"a\":2,\"b\":\x7b\x7d\x7d blah".data)
    = some ("\x7b\"a\":2,\"b\":\x7b\x7d\x7d".data) := by rfl

example : generate_json_completion_post ("[1, 2]".data)
    = .ok (JVal.jarr [JVal.jnum ("1".data), JVal.jnum ("2".data)]) := by rfl

/-! ## Claim-side definitions

These follow the spec's wording (last offset at which outer brace depth
returns to zero; the candidate substrings of the left-to-right scan) and are
compared with the source translations above. -/

/-- Scanner state after the first `i` characters of the input. -/
def scanPrefixSt (s : Str) (i : Nat) : RepairSt := repairScan repairInit 0 (s.take i)

/-- Position `i` is an offset at which the outer brace depth returns to zero:
the character there is a `}` processed outside any string/escape state, and
it brings the running brace count from one to zero. -/
def closesAtZero (s : Str) (i : Nat) : Prop :=
  s[i]? = some '}' ∧ (scanPrefixSt s i).escape_next = false ∧
    (scanPrefixSt s i).in_string = false ∧ (scanPrefixSt s i).brace_count = 1

instance (s : Str) (i : Nat) : Decidable (closesAtZero s i) := by
  unfold closesAtZero; infer_instance

/-- Spec-side candidate enumeration for extraction: the same left-to-right
brace-depth scan, but collecting every candidate substring (a substring from
a `{` seen at depth zero to the position where the depth returns to zero),
with no validation at all. -/
def candLoop (text : Str) : Str → Nat → Int → Int → List Str
  | [], _, _, _ => []
  | c :: cs, i, brace_count, start_index =>
    if c = '{' then
      candLoop text cs (i + 1) (brace_count + 1)
        (if brace_count = 0 then (i : Int) else start_index)
    else if c = '}' then
      let brace1 := brace_count - 1
      if brace1 = 0 ∧ start_index ≠ -1 then
        ((text.drop start_index.toNat).take (i + 1 - start_index.toNat)) ::
          candLoop text cs (i + 1) brace1 (-1)
      else candLoop text cs (i + 1) brace1 start_index
    else candLoop text cs (i + 1) brace_count start_index

/-- All candidate substrings of the text, in scan order. -/
def jsonCandidates (text : Str) : List Str := candLoop text text 0 0 (-1)

/-- Whether a run of the retry loop returned a payload. -/
def RunResult.isSuccess : RunResult → Bool
  | .ok _ => true
  | _ => false

/-- An oracle whose every attempt fails with a transport error. -/
def failOracle : Nat → CallOutcome := fun _ => .transportError "boom"

/-! ## Lemmas about the retry loop -/

lemma genLoop_ok {cfg : RetryConfig} {oracle : Nat → CallOutcome} {attempt : Nat} {c : Str}
    (h : attemptOutcome (oracle attempt) = .ok c) :
    genLoop cfg oracle attempt = ⟨1, [], .ok c⟩ := by
  rw [genLoop, h]

lemma genLoop_err_last {cfg : RetryConfig} {oracle : Nat → CallOutcome} {attempt : Nat}
    {e : AttemptErr} (h : attemptOutcome (oracle attempt) = .error e)
    (h2 : ¬ attempt < cfg.attempts - 1) :
    genLoop cfg oracle attempt = ⟨1, [], .raised e⟩ := by
  rw [genLoop, h]
  simp [h2]

lemma genLoop_err_cont {cfg : RetryConfig} {oracle : Nat → CallOutcome} {attempt : Nat}
    {e : AttemptErr} (h : attemptOutcome (oracle attempt) = .error e)
    (h2 : attempt < cfg.attempts - 1) :
    genLoop cfg oracle attempt =
      ⟨(genLoop cfg oracle (attempt + 1)).calls + 1,
       backoffDelay cfg attempt :: (genLoop cfg oracle (attempt + 1)).delays,
       (genLoop cfg oracle (attempt + 1)).result⟩ := by
  rw [genLoop, h]
  simp [h2]

lemma genLoop_all_fail (cfg : RetryConfig) (oracle : Nat → CallOutcome) :
    ∀ n attempt, cfg.attempts - attempt = n → attempt < cfg.attempts →
    (∀ i, attempt ≤ i → i < cfg.attempts → ∃ e, attemptOutcome (oracle i) = .error e) →
    (genLoop cfg oracle attempt).calls = cfg.attempts - attempt ∧
    ∃ e, attemptOutcome (oracle (cfg.attempts - 1)) = .error e ∧
      (genLoop cfg oracle attempt).result = .raised e := by
  intro n
  induction n with
  | zero => intro attempt h0 hlt _; omega
  | succ n ih =>
    intro attempt hn hlt hfail
    obtain ⟨e, he⟩ := hfail attempt le_rfl hlt
    by_cases h2 : attempt < cfg.attempts - 1
    · rw [genLoop_err_cont he h2]
      obtain ⟨hcalls, e2, he2, hres⟩ := ih (attempt + 1) (by omega) (by omega)
        (fun i hi hi2 => hfail i (by omega) hi2)
      exact ⟨by simp only [hcalls]; omega, e2, he2, by simpa using hres⟩
    · rw [genLoop_err_last he h2]
      have hix : cfg.attempts - 1 = attempt := by omega
      exact ⟨by simp only []; omega, e, by rwa [hix], rfl⟩

lemma genLoop_delays (cfg : RetryConfig) (oracle : Nat → CallOutcome) :
    ∀ n attempt, cfg.attempts - attempt = n →
    ∃ k, (genLoop cfg oracle attempt).delays = (List.range' attempt k).map (backoffDelay cfg) := by
  intro n
  induction n with
  | zero =>
    intro attempt hn
    cases h : attemptOutcome (oracle attempt) with
    | ok c => exact ⟨0, by rw [genLoop_ok h]; rfl⟩
    | error e => exact ⟨0, by rw [genLoop_err_last h (by omega)]; rfl⟩
  | succ n ih =>
    intro attempt hn
    cases h : attemptOutcome (oracle attempt) with
    | ok c => exact ⟨0, by rw [genLoop_ok h]; rfl⟩
    | error e =>
      by_cases h2 : attempt < cfg.attempts - 1
      · obtain ⟨k, hk⟩ := ih (attempt + 1) (by omega)
        refine ⟨k + 1, ?_⟩
        rw [genLoop_err_cont h h2]
        simp only [List.range'_succ, List.map_cons]
        exact congrArg _ hk
      · exact ⟨0, by rw [genLoop_err_last h h2]; rfl⟩

lemma genLoop_congr (cfg : RetryConfig) (o1 o2 : Nat → CallOutcome)
    (hsame : ∀ i, (attemptOutcome (o1 i)).isOk = (attemptOutcome (o2 i)).isOk) :
    ∀ n attempt, cfg.attempts - attempt = n →
    (genLoop cfg o1 attempt).calls = (genLoop cfg o2 attempt).calls ∧
    (genLoop cfg o1 attempt).delays = (genLoop cfg o2 attempt).delays ∧
    (genLoop cfg o1 attempt).result.isSuccess = (genLoop cfg o2 attempt).result.isSuccess := by
  intro n
  induction n with
  | zero =>
    intro attempt hn
    cases h1 : attemptOutcome (o1 attempt) with
    | ok c =>
      cases h2 : attemptOutcome (o2 attempt) with
      | ok c' => rw [genLoop_ok h1, genLoop_ok h2]; exact ⟨rfl, rfl, rfl⟩
      | error e' => have := hsame attempt; rw [h1, h2] at this; simp [Except.isOk, Except.toBool] at this
    | error e =>
      cases h2 : attemptOutcome (o2 attempt) with
      | ok c' => have := hsame attempt; rw [h1, h2] at this; simp [Except.isOk, Except.toBool] at this
      | error e' =>
        rw [genLoop_err_last h1 (by omega), genLoop_err_last h2 (by omega)]
        exact ⟨rfl, rfl, rfl⟩
  | succ n ih =>
    intro attempt hn
    cases h1 : attemptOutcome (o1 attempt) with
    | ok c =>
      cases h2 : attemptOutcome (o2 attempt) with
      | ok c' => rw [genLoop_ok h1, genLoop_ok h2]; exact ⟨rfl, rfl, rfl⟩
      | error e' => have := hsame attempt; rw [h1, h2] at this; simp [Except.isOk, Except.toBool] at this
    | error e =>
      cases h2 : attemptOutcome (o2 attempt) with
      | ok c' => have := hsame attempt; rw [h1, h2] at this; simp [Except.isOk, Except.toBool] at this
      | error e' =>
        by_cases hcont : attempt < cfg.attempts - 1
        · rw [genLoop_err_cont h1 hcont, genLoop_err_cont h2 hcont]
          obtain ⟨hc, hd, hr⟩ := ih (attempt + 1) (by omega)
          exact ⟨by simpa using hc, by simpa using hd, by simpa using hr⟩
        · rw [genLoop_err_last h1 hcont, genLoop_err_last h2 hcont]
          exact ⟨rfl, rfl, rfl⟩

lemma attemptOutcome_ok_nonblank {o : CallOutcome} {c : Str}
    (h : attemptOutcome o = .ok c) : pyStrip c ≠ [] := by
  cases o with
  | transportError msg => simp [attemptOutcome] at h
  | success content =>
    cases content with
    | none => simp [attemptOutcome] at h
    | some c' =>
      by_cases hb : pyStrip c' = []
      · simp [attemptOutcome, hb] at h
      · simp [attemptOutcome, hb] at h
        rwa [← h]

lemma genLoop_ok_source (cfg : RetryConfig) (oracle : Nat → CallOutcome) :
    ∀ n attempt, cfg.attempts - attempt = n →
    ∀ c, (genLoop cfg oracle attempt).result = .ok c →
    ∃ j, attemptOutcome (oracle j) = .ok c := by
  intro n
  induction n with
  | zero =>
    intro attempt hn c hres
    cases h : attemptOutcome (oracle attempt) with
    | ok c' =>
      rw [genLoop_ok h] at hres
      exact ⟨attempt, by rw [h]; exact congrArg _ (by injection hres)⟩
    | error e => rw [genLoop_err_last h (by omega)] at hres; exact absurd hres (by simp)
  | succ n ih =>
    intro attempt hn c hres
    cases h : attemptOutcome (oracle attempt) with
    | ok c' =>
      rw [genLoop_ok h] at hres
      exact ⟨attempt, by rw [h]; exact congrArg _ (by injection hres)⟩
    | error e =>
      by_cases hcont : attempt < cfg.attempts - 1
      · rw [genLoop_err_cont h hcont] at hres
        exact ih (attempt + 1) (by omega) c (by simpa using hres)
      · rw [genLoop_err_last h hcont] at hres; exact absurd hres (by simp)

/-! ## Claim theorems: retry behaviour -/

/-- Claim C1: when every attempt fails (transport/remote error or empty
payload), `generate_completion` raises after exactly `max_attempts` remote
calls — no more, no fewer — propagating the last attempt's error. -/
theorem generate_completion_retry_exhaustion
    (cfg : RetryConfig) (oracle : Nat → CallOutcome) (h1 : 1 ≤ cfg.attempts)
    (hfail : ∀ i, i < cfg.attempts → ∃ e, attemptOutcome (oracle i) = .error e) :
    (generate_completion cfg oracle).calls = cfg.attempts ∧
    ∃ e, attemptOutcome (oracle (cfg.attempts - 1)) = .error e ∧
      (generate_completion cfg oracle).result = .raised e := by
  have hne : cfg.attempts ≠ 0 := by omega
  unfold generate_completion
  rw [if_neg hne]
  have h := genLoop_all_fail cfg oracle cfg.attempts 0 (by omega) (by omega)
    (fun i _ hi => hfail i hi)
  simpa using h

/-- Witness for C1 at a concrete three-attempt configuration. -/
theorem generate_completion_retry_exhaustion_witness :
    (generate_completion ⟨3, 2, 3⟩ failOracle).calls = 3 ∧
    ∃ e, attemptOutcome (failOracle (3 - 1)) = .error e ∧
      (generate_completion ⟨3, 2, 3⟩ failOracle).result = .raised e :=
  generate_completion_retry_exhaustion ⟨3, 2, 3⟩ failOracle (by norm_num)
    (fun _ _ => ⟨.transport "boom", rfl⟩)

/-- Claim C4: with `backoff_factor ≥ 1` (and a non-negative base delay, a
duration), the delays slept are exactly the initial segment of the schedule
`base_delay * backoff_factor ^ i`, the `i`-th slept delay equals that value,
and the delay sequence is non-decreasing. -/
theorem generate_completion_backoff
    (cfg : RetryConfig) (oracle : Nat → CallOutcome)
    (hb : 1 ≤ cfg.backoff_factor) (hd : 0 ≤ cfg.delay) :
    (∃ k, (generate_completion cfg oracle).delays
        = (List.range k).map (backoffDelay cfg)) ∧
    (∀ i q, ((generate_completion cfg oracle).delays)[i]? = some q →
        q = cfg.delay * cfg.backoff_factor ^ i) ∧
    List.Chain' (fun a b => a ≤ b) ((generate_completion cfg oracle).delays) := by
  have hmono : ∀ i j : Nat, i ≤ j → backoffDelay cfg i ≤ backoffDelay cfg j := by
    intro i j hij
    unfold backoffDelay
    exact mul_le_mul_of_nonneg_left (pow_le_pow_right₀ hb hij) hd
  obtain ⟨k, hk⟩ :
      ∃ k, (generate_completion cfg oracle).delays
        = (List.range k).map (backoffDelay cfg) := by
    unfold generate_completion
    by_cases h0 : cfg.attempts = 0
    · exact ⟨0, by rw [if_pos h0]; rfl⟩
    · obtain ⟨k, hk⟩ := genLoop_delays cfg oracle cfg.attempts 0 (by omega)
      exact ⟨k, by rw [if_neg h0, hk, List.range_eq_range']⟩
  refine ⟨⟨k, hk⟩, ?_, ?_⟩
  · intro i q hq
    rw [hk] at hq
    rw [List.getElem?_map] at hq
    have hik : i < k := by
      by_contra hik
      rw [List.getElem?_eq_none (by simpa using Nat.le_of_not_lt hik)] at hq
      simp at hq
    rw [List.getElem?_range hik] at hq
    simp only [Option.map_some'] at hq
    have hqe : backoffDelay cfg i = q := by injection hq
    simpa [backoffDelay] using hqe.symm
  · rw [hk]
    have hpw : (List.range k).Pairwise (fun a b => backoffDelay cfg a ≤ backoffDelay cfg b) :=
      (List.pairwise_lt_range k).imp fun h => hmono _ _ h.le
    exact (List.pairwise_map.mpr hpw).chain'

/-- Witness for C4 at the concrete configuration of C1's witness. -/
theorem generate_completion_backoff_witness :
    (∃ k, (generate_completion ⟨3, 2, 3⟩ failOracle).delays
        = (List.range k).map (backoffDelay ⟨3, 2, 3⟩)) ∧
    (∀ i q, ((generate_completion ⟨3, 2, 3⟩ failOracle).delays)[i]? = some q →
        q = (2 : ℚ) * (3 : ℚ) ^ i) ∧
    List.Chain' (fun a b => a ≤ b) ((generate_completion ⟨3, 2, 3⟩ failOracle).delays) :=
  generate_completion_backoff ⟨3, 2, 3⟩ failOracle (by norm_num) (by norm_num)

/-- Claim C5: a missing, empty or whitespace-only payload is classified as a
failure exactly like a transport error — oracles failing at the same
attempts produce the same number of calls, the same delays and the same
success shape — and any payload returned on success is not blank. -/
theorem empty_response_classification :
    (attemptOutcome (.success none) = .error .emptyResponse) ∧
    (∀ c : Str, pyStrip c = [] →
        attemptOutcome (.success (some c)) = .error .emptyResponse) ∧
    (∀ (cfg : RetryConfig) (o1 o2 : Nat → CallOutcome),
      (∀ i, (attemptOutcome (o1 i)).isOk = (attemptOutcome (o2 i)).isOk) →
      (generate_completion cfg o1).calls = (generate_completion cfg o2).calls ∧
      (generate_completion cfg o1).delays = (generate_completion cfg o2).delays ∧
      (generate_completion cfg o1).result.isSuccess
        = (generate_completion cfg o2).result.isSuccess) ∧
    (∀ (cfg : RetryConfig) (o : Nat → CallOutcome) (c : Str),
      (generate_completion cfg o).result = .ok c → pyStrip c ≠ []) := by
  refine ⟨rfl, ?_, ?_, ?_⟩
  · intro c hc
    simp [attemptOutcome, hc]
  · intro cfg o1 o2 hsame
    unfold generate_completion
    by_cases h0 : cfg.attempts = 0
    · simp only [if_pos h0]
      exact ⟨trivial, trivial, trivial⟩
    · simp only [if_neg h0]
      exact genLoop_congr cfg o1 o2 hsame cfg.attempts 0 (by omega)
  · intro cfg o c hres
    unfold generate_completion at hres
    by_cases h0 : cfg.attempts = 0
    · rw [if_pos h0] at hres; exact absurd hres (by simp)
    · rw [if_neg h0] at hres
      obtain ⟨j, hj⟩ := genLoop_ok_source cfg o cfg.attempts 0 (by omega) c hres
      exact attemptOutcome_ok_nonblank hj

/-! ## Claim theorems: orchestration fallback and rate limiter -/

/-- Claim C6: `analyze_test_class` first calls the client with the strict
schema; on any raised error exactly one retry with schema `None` is issued
and its outcome — success or failure — is returned unmodified; at most two
calls are ever made. -/
theorem analyze_test_class_fallback :
    ∀ {σ ε ρ : Type} (client : Option σ → Except ε ρ) (s : σ),
      ((analyze_test_class client s).1.head? = some (some s)) ∧
      (∀ r, client (some s) = .ok r →
          analyze_test_class client s = ([some s], .ok r)) ∧
      (∀ e, client (some s) = .error e →
          analyze_test_class client s = ([some s, none], client none)) ∧
      ((analyze_test_class client s).1.length ≤ 2) := by
  intro σ ε ρ client s
  cases h : client (some s) with
  | ok r =>
    refine ⟨?_, ?_, ?_, ?_⟩ <;> simp [analyze_test_class, h]
  | error e =>
    refine ⟨?_, ?_, ?_, ?_⟩ <;> simp [analyze_test_class, h]

/-- Claim C9 counterexample: a negative rate is accepted silently by the
constructor (with a negative minimum interval), not rejected. -/
theorem rateLimiter_negative_rate_accepted :
    (RateLimiter.init (-5)).isOk = true ∧
    RateLimiter.init (-5) = .ok ⟨-5, -12, 0⟩ := by
  refine ⟨rfl, ?_⟩
  rw [RateLimiter.init, if_neg (by norm_num)]
  norm_num

/-- Claim C9 as amended: a zero rate fails fast at construction (Python's
division raises `ZeroDivisionError` before any remote call); every nonzero
rate, negative ones included, is accepted without error. -/
theorem rateLimiter_zero_rate_fails_fast :
    (RateLimiter.init 0 = .error "ZeroDivisionError: float division by zero") ∧
    (∀ rpm : Int, rpm ≠ 0 →
        RateLimiter.init rpm = .ok ⟨rpm, 60 / (rpm : ℚ), 0⟩) := by
  refine ⟨rfl, ?_⟩
  intro rpm h
  rw [RateLimiter.init, if_neg h]

/-- Claim C8: the failing input.  A payload that is a JSON array survives
`generate_json_completion` unchanged: the returned value is not an object
tree, contradicting the declared `Dict` contract. -/
theorem generate_json_completion_array_result :
    generate_json_completion_post ("[1, 2]".data)
        = .ok (JVal.jarr [JVal.jnum ("1".data), JVal.jnum ("2".data)]) ∧
    (JVal.jarr [JVal.jnum ("1".data), JVal.jnum ("2".data)]).isObj = false := by
  exact ⟨rfl, rfl⟩

/-! ## Claim theorems: extraction -/

lemma extractLoop_eq_find (valid : Str → Bool) (text : Str) :
    ∀ (l : Str) (i : Nat) (b s : Int),
      extractLoop valid text l i b s = (candLoop text l i b s).find? valid := by
  intro l
  induction l with
  | nil => intro i b s; rfl
  | cons c cs ih =>
    intro i b s
    rw [extractLoop, candLoop]
    by_cases hc : c = '{'
    · simp only [if_pos hc]
      exact ih _ _ _
    · simp only [if_neg hc]
      by_cases hc2 : c = '}'
      · simp only [if_pos hc2]
        by_cases hcand : b - 1 = 0 ∧ s ≠ -1
        · simp only [if_pos hcand]
          by_cases hv : valid ((text.drop s.toNat).take (i + 1 - s.toNat))
          · simp only [if_pos hv]
            rw [List.find?_cons_of_pos _ hv]
          · simp only [if_neg hv]
            rw [List.find?_cons_of_neg _ (by simpa using hv)]
            exact ih _ _ _
        · simp only [if_neg hcand]
          exact ih _ _ _
      · simp only [if_neg hc2]
        exact ih _ _ _

lemma candLoop_shape (text : Str) :
    ∀ (l : Str) (i : Nat) (b st : Int),
      l = text.drop i →
      (st = -1 ∨ (0 ≤ st ∧ st.toNat ≤ i ∧ text[st.toNat]? = some '{')) →
      ∀ c ∈ candLoop text l i b st,
        ∃ a e, a ≤ e ∧ e < text.length ∧
          c = (text.drop a).take (e + 1 - a) ∧
          text[a]? = some '{' ∧ text[e]? = some '}' := by
  intro l
  induction l with
  | nil => intro i b st _ _ c hc; simp [candLoop] at hc
  | cons c0 cs ih =>
    intro i b st hl hst c hc
    have hi : text[i]? = some c0 := by
      have h0 : (text.drop i)[0]? = some c0 := by rw [← hl]; simp
      rw [List.getElem?_drop] at h0
      simpa using h0
    have hcs : cs = text.drop (i + 1) := by
      have htl : (text.drop i).tail = text.drop (i + 1) := List.tail_drop text i
      rw [← htl, ← hl]
      rfl
    rw [candLoop] at hc
    by_cases h1 : c0 = '{'
    · rw [if_pos h1] at hc
      refine ih (i + 1) (b + 1) _ hcs ?_ c hc
      by_cases hb : b = 0
      · right
        rw [if_pos hb]
        refine ⟨Int.natCast_nonneg i, ?_, ?_⟩
        · rw [Int.toNat_natCast]; omega
        · rw [Int.toNat_natCast, hi, h1]
      · rw [if_neg hb]
        rcases hst with rfl | ⟨hst0, hstle, hstget⟩
        · exact Or.inl rfl
        · exact Or.inr ⟨hst0, by omega, hstget⟩
    · rw [if_neg h1] at hc
      by_cases h2 : c0 = '}'
      · rw [if_pos h2] at hc
        by_cases h3 : b - 1 = 0 ∧ st ≠ -1
        · simp only [if_pos h3] at hc
          rcases hst with rfl | ⟨hst0, hstle, hstget⟩
          · exact absurd rfl h3.2
          rcases List.mem_cons.mp hc with rfl | hc2
          · have hilen : i < text.length := by
              by_contra hge
              rw [List.getElem?_eq_none (by omega)] at hi
              exact absurd hi (by simp)
            exact ⟨st.toNat, i, hstle, hilen, rfl, hstget, by rw [hi, h2]⟩
          · exact ih (i + 1) (b - 1) (-1) hcs (Or.inl rfl) c hc2
        · simp only [if_neg h3] at hc
          exact ih (i + 1) (b - 1) st hcs
            (hst.imp id fun h => ⟨h.1, Nat.le_succ_of_le h.2.1, h.2.2⟩) c hc
      · rw [if_neg h2] at hc
        exact ih (i + 1) b st hcs
          (hst.imp id fun h => ⟨h.1, Nat.le_succ_of_le h.2.1, h.2.2⟩) c hc

/-- Claim C3: `_extract_json_from_text` scans left to right and returns the
first candidate substring (from a `{` seen at depth zero to the offset where
the depth returns to zero) that parses as JSON, continuing past invalid
candidates, and `none` when no candidate parses; on the spec's noisy text
with an invalid first candidate it returns the second candidate. -/
theorem extract_first_valid_candidate :
    (∀ text : Str, _extract_json_from_text text = (jsonCandidates text).find? jsonValid) ∧
    (∀ text : Str, (_extract_json_from_text text = none ↔
        ∀ c ∈ jsonCandidates text, jsonValid c = false)) ∧
    (jsonCandidates ("blah \x7b\"a\":\x7d blah \x7b\"a\":2,\"b\":\x7b\x7d\x7d blah".data)
        = [("\x7b\"a\":\x7d".data), ("\x7b\"a\":2,\"b\":\x7b\x7d\x7d".data)]) ∧
    jsonValid ("\x7b\"a\":\x7d".data) = false ∧
    (_extract_json_from_text ("blah \x7b\"a\":\x7d blah \x7b\"a\":2,\"b\":\x7b\x7d\x7d blah".data)
        = some ("\x7b\"a\":2,\"b\":\x7b\x7d\x7d".data)) ∧
    (∀ (text c : Str), c ∈ jsonCandidates text →
      ∃ a e, a ≤ e ∧ e < text.length ∧
        c = (text.drop a).take (e + 1 - a) ∧
        text[a]? = some '\x7b' ∧ text[e]? = some '\x7d') := by
  have key : ∀ text : Str,
      _extract_json_from_text text = (jsonCandidates text).find? jsonValid :=
    fun text => extractLoop_eq_find jsonValid text text 0 0 (-1)
  refine ⟨key, ?_, by rfl, by rfl, by rfl,
    fun text c hc => candLoop_shape text text 0 0 (-1) (by simp) (Or.inl rfl) c hc⟩
  intro text
  rw [key text]
  simp [List.find?_eq_none]

/-! ## Claim theorems: truncation repair -/

lemma repairScan_append_singleton (c : Char) :
    ∀ (l : Str) (st : RepairSt) (j : Nat),
      repairScan st j (l ++ [c]) = repairStep (repairScan st j l) (j + l.length) c := by
  intro l
  induction l with
  | nil => intro st j; simp [repairScan]
  | cons a as ih =>
    intro st j
    have hcons : (a :: as) ++ [c] = a :: (as ++ [c]) := rfl
    rw [hcons, repairScan, ih, repairScan]
    congr 1
    simp only [List.length_cons]
    omega

lemma repairStep_set {st : RepairSt} {i : Nat}
    (hesc : st.escape_next = false) (hstr : st.in_string = false)
    (hbr : st.brace_count = 1) :
    (repairStep st i '}').last_valid_pos = (i : Int) + 1 := by
  unfold repairStep
  rw [hesc, hstr, hbr]
  simp

lemma repairStep_preserve {st : RepairSt} {i : Nat} {c : Char}
    (h : ¬ (st.escape_next = false ∧ st.in_string = false ∧ c = '}' ∧
            st.brace_count = 1)) :
    (repairStep st i c).last_valid_pos = st.last_valid_pos := by
  unfold repairStep
  by_cases h1 : st.escape_next
  · simp [h1]
  · simp only [h1, if_false, Bool.false_eq_true]
    by_cases h2 : c = '\\'
    · simp [h2]
    · simp only [h2, if_false]
      by_cases h3 : st.in_string
      · simp only [h3]
        split_ifs <;> simp_all
      · have h3' : st.in_string = false := by simpa using h3
        by_cases h4 : c = '"'
        · simp [h3', h4]
        · simp only [h3', h4]
          by_cases h5 : c = '{'
          · simp [h4, h5]
          · by_cases h6 : c = '}'
            · have hbr : ¬ (st.brace_count = 1) := by
                intro hb
                exact h ⟨by simpa using h1, h3', h6, hb⟩
              have hbr' : ¬ (st.brace_count - 1 = 0) := by omega
              simp [h4, h5, h6, hbr']
            · by_cases h7 : c = '['
              · simp [h4, h5, h6, h7]
              · by_cases h8 : c = ']'
                · simp [h4, h5, h6, h7, h8]
                · simp [h4, h5, h6, h7, h8]

lemma scanPrefixSt_succ {s : Str} {i : Nat} {c : Char} (h : s[i]? = some c) :
    scanPrefixSt s (i + 1) = repairStep (scanPrefixSt s i) i c := by
  have hlen : i < s.length := by
    by_contra hge
    rw [List.getElem?_eq_none (by omega)] at h
    exact absurd h (by simp)
  unfold scanPrefixSt
  rw [List.take_succ, h]
  simp only [Option.toList_some]
  rw [repairScan_append_singleton]
  congr 1
  simp only [List.length_take, Nat.zero_add]
  omega

lemma scanPrefixSt_past {s : Str} {n : Nat} (h : s.length ≤ n) :
    scanPrefixSt s n = scanPrefixSt s s.length := by
  unfold scanPrefixSt
  rw [List.take_of_length_le h, List.take_length]

lemma closesAtZero_lt {s : Str} {i : Nat} (h : closesAtZero s i) : i < s.length := by
  obtain ⟨hget, -, -, -⟩ := h
  by_contra hge
  rw [List.getElem?_eq_none (by omega)] at hget
  exact absurd hget (by simp)

lemma lastValid_charact (s : Str) :
    ∀ n, ((scanPrefixSt s n).last_valid_pos = -1 ∧ ∀ i, i < n → ¬ closesAtZero s i) ∨
      (∃ i, i < n ∧ closesAtZero s i ∧
        (scanPrefixSt s n).last_valid_pos = (i : Int) + 1 ∧
        ∀ j, j < n → closesAtZero s j → j ≤ i) := by
  intro n
  induction n with
  | zero => exact Or.inl ⟨rfl, by omega⟩
  | succ n ih =>
    by_cases hn : n < s.length
    · obtain ⟨c, hc⟩ : ∃ c, s[n]? = some c := ⟨s[n], List.getElem?_eq_getElem hn⟩
      have hstep := scanPrefixSt_succ hc
      by_cases hcl : closesAtZero s n
      · right
        obtain ⟨hget, hesc, hstr, hbr⟩ := hcl
        have hceq : c = '}' := by
          have := hc.symm.trans hget
          injection this
        refine ⟨n, by omega, ⟨hget, hesc, hstr, hbr⟩, ?_, fun j hj _ => by omega⟩
        rw [hstep, hceq]
        exact repairStep_set hesc hstr hbr
      · have hpres : (scanPrefixSt s (n + 1)).last_valid_pos
            = (scanPrefixSt s n).last_valid_pos := by
          rw [hstep]
          apply repairStep_preserve
          intro ⟨he, hs, hq, hb⟩
          exact hcl ⟨by rw [hc, hq], he, hs, hb⟩
        rcases ih with ⟨hlv, hnone⟩ | ⟨i, hi, hcli, hlv, hmax⟩
        · left
          refine ⟨by rw [hpres, hlv], fun i hi => ?_⟩
          rcases Nat.lt_succ_iff_lt_or_eq.mp hi with h | h
          · exact hnone i h
          · subst h; exact hcl
        · right
          refine ⟨i, by omega, hcli, by rw [hpres, hlv], fun j hj hcj => ?_⟩
          rcases Nat.lt_succ_iff_lt_or_eq.mp hj with h | h
          · exact hmax j h hcj
          · subst h; exact absurd hcj hcl
    · have heq : scanPrefixSt s (n + 1) = scanPrefixSt s n := by
        rw [scanPrefixSt_past (show s.length ≤ n + 1 by omega),
            (scanPrefixSt_past (show s.length ≤ n by omega)).symm]
      have hncl : ¬ closesAtZero s n := fun hcl => by
        have := closesAtZero_lt hcl; omega
      rcases ih with ⟨hlv, hnone⟩ | ⟨i, hi, hcli, hlv, hmax⟩
      · left
        refine ⟨by rw [heq, hlv], fun i hi => ?_⟩
        rcases Nat.lt_succ_iff_lt_or_eq.mp hi with h | h
        · exact hnone i h
        · subst h; exact hncl
      · right
        refine ⟨i, by omega, hcli, by rw [heq, hlv], fun j hj hcj => ?_⟩
        rcases Nat.lt_succ_iff_lt_or_eq.mp hj with h | h
        · exact hmax j h hcj
        · subst h; exact absurd hcj hncl

lemma repairScan_full (s : Str) : repairScan repairInit 0 s = scanPrefixSt s s.length := by
  unfold scanPrefixSt
  rw [List.take_length]

lemma repair_spec (s : Str) :
    (_repair_truncated_json s = none ↔ ∀ i, ¬ closesAtZero s i) ∧
    (∀ r, _repair_truncated_json s = some r ↔
      ∃ i, closesAtZero s i ∧ r = s.take (i + 1) ∧ ∀ j, closesAtZero s j → j ≤ i) := by
  rcases lastValid_charact s s.length with ⟨hlv, hnone⟩ | ⟨i, hi, hcli, hlv, hmax⟩
  · have hnone' : ∀ i, ¬ closesAtZero s i := fun i hcl =>
      hnone i (closesAtZero_lt hcl) hcl
    have hrep : _repair_truncated_json s = none := by
      simp only [_repair_truncated_json, repairScan_full, hlv]
      norm_num
    refine ⟨⟨fun _ => hnone', fun _ => hrep⟩, fun r => ?_⟩
    rw [hrep]
    constructor
    · intro h; exact absurd h (by simp)
    · rintro ⟨i, hcl, -, -⟩; exact absurd hcl (hnone' i)
  · have htoNat : ((i : Int) + 1).toNat = i + 1 := by omega
    have hrep : _repair_truncated_json s = some (s.take (i + 1)) := by
      simp only [_repair_truncated_json, repairScan_full, hlv]
      rw [if_pos (by omega : ((i : Int) + 1) > 0), htoNat]
    have hmax' : ∀ j, closesAtZero s j → j ≤ i := fun j hcj =>
      hmax j (closesAtZero_lt hcj) hcj
    refine ⟨⟨fun h => absurd (h.symm.trans hrep) (by simp), fun hno => absurd hcli (hno i)⟩,
      fun r => ?_⟩
    rw [hrep]
    constructor
    · intro h
      exact ⟨i, hcli, (Option.some.inj h).symm, hmax'⟩
    · rintro ⟨i', hcli', hr', hmax''⟩
      have hieq : i' = i := le_antisymm (hmax' i' hcli') (hmax'' i hcli)
      subst hieq
      rw [hr']

/-- Claim C2: `_repair_truncated_json` tracks brace depth and
in-string/escape state and returns the prefix ending at the last offset at
which the outer brace depth returns to zero, or no repair when no such
offset exists; on the spec's truncated example no brace ever balances to
zero, so it fails gracefully with no repair. -/
theorem repair_truncated_last_balanced :
    (∀ (s r : Str), _repair_truncated_json s = some r ↔
      ∃ i, closesAtZero s i ∧ r = s.take (i + 1) ∧ ∀ j, closesAtZero s j → j ≤ i) ∧
    (∀ s : Str, (_repair_truncated_json s = none ↔ ∀ i, ¬ closesAtZero s i)) ∧
    (_repair_truncated_json ("\x7b\"a\": \x7b\"b\": 1\x7d, \"c\": [1,2,3".data) = none) := by
  exact ⟨fun s r => (repair_spec s).2 r, fun s => (repair_spec s).1, by rfl⟩

/-- Claim C10: a successful repair only truncates — the result is a prefix
of the input ending in the closing brace at the balance point; nothing is
inserted or altered. -/
theorem repair_only_truncates (s r : Str) (h : _repair_truncated_json s = some r) :
    (∃ t, s = r ++ t) ∧ r.getLast? = some '}' := by
  obtain ⟨i, hcl, hr, -⟩ := ((repair_spec s).2 r).mp h
  have hget : s[i]? = some '}' := hcl.1
  subst hr
  constructor
  · exact ⟨s.drop (i + 1), (List.take_append_drop (i + 1) s).symm⟩
  · rw [List.take_succ, hget]
    simp only [Option.toList_some]
    rw [List.getLast?_concat]

/-- Witness for C10 at a concrete repairable input. -/
theorem repair_only_truncates_witness :
    (∃ t, ("\x7b\"a\": 1\x7d tail".data) = ("\x7b\"a\": 1\x7d".data) ++ t) ∧
    ("\x7b\"a\": 1\x7d".data).getLast? = some '}' :=
  repair_only_truncates ("\x7b\"a\": 1\x7d tail".data) ("\x7b\"a\": 1\x7d".data) (by rfl)

/-! ## Claim theorems: sanitization -/

lemma lstripL_decomp (l : Str) : ∃ w, l = w ++ lstripL l ∧ ∀ c ∈ w, pyIsSpace c :=
  ⟨l.takeWhile pyIsSpace, (List.takeWhile_append_dropWhile pyIsSpace l).symm,
    fun _ hc => List.mem_takeWhile_imp hc⟩

lemma rstripL_decomp (l : Str) : ∃ w, l = rstripL l ++ w ∧ ∀ c ∈ w, pyIsSpace c := by
  refine ⟨(l.reverse.takeWhile pyIsSpace).reverse, ?_, ?_⟩
  · have h : rstripL l ++ (l.reverse.takeWhile pyIsSpace).reverse
        = (l.reverse.takeWhile pyIsSpace ++ l.reverse.dropWhile pyIsSpace).reverse := by
      rw [List.reverse_append]
      rfl
    rw [h, List.takeWhile_append_dropWhile, List.reverse_reverse]
  · intro c hc
    exact List.mem_takeWhile_imp (List.mem_reverse.mp hc)

lemma pyStrip_decomp (l : Str) :
    ∃ w1 w2, l = w1 ++ pyStrip l ++ w2 ∧
      (∀ c ∈ w1, pyIsSpace c) ∧ (∀ c ∈ w2, pyIsSpace c) := by
  obtain ⟨w1, h1, hw1⟩ := lstripL_decomp l
  obtain ⟨w2, h2, hw2⟩ := rstripL_decomp (lstripL l)
  refine ⟨w1, w2, ?_, hw1, hw2⟩
  rw [List.append_assoc]
  rw [pyStrip, ← h2, ← h1]

lemma prefixOf_decomp : ∀ (p l : Str), p.isPrefixOf l → ∃ t, l = p ++ t := by
  intro p
  induction p with
  | nil => intro l _; exact ⟨l, rfl⟩
  | cons a as ih =>
    intro l h
    cases l with
    | nil => simp [List.isPrefixOf] at h
    | cons b bs =>
      simp only [List.isPrefixOf, Bool.and_eq_true, beq_iff_eq] at h
      obtain ⟨hab, h2⟩ := h
      obtain ⟨t, ht⟩ := ih bs h2
      exact ⟨t, by rw [hab, ht]; rfl⟩

lemma isPrefixOf_append_self : ∀ (p t : Str), p.isPrefixOf (p ++ t) = true := by
  intro p
  induction p with
  | nil => intro t; simp [List.isPrefixOf]
  | cons a as ih => intro t; simp [List.isPrefixOf, ih]

lemma suffixOf_decomp {p l : Str} (h : p.isSuffixOf l) : ∃ t, l = t ++ p := by
  obtain ⟨t, ht⟩ := prefixOf_decomp p.reverse l.reverse h
  refine ⟨t.reverse, ?_⟩
  have h2 := congrArg List.reverse ht
  simpa using h2

lemma tail_part (x : Str) :
    ∃ wa wb m2, x = wa ++ pyStrip (dropTrailFence x) ++ wb ++ m2 ∧
      (∀ c ∈ wa, pyIsSpace c) ∧ (∀ c ∈ wb, pyIsSpace c) ∧
      (m2 = "```".data ∨ m2 = []) := by
  by_cases hsuf : ("```".data).isSuffixOf x
  · obtain ⟨y, hy⟩ := suffixOf_decomp hsuf
    have htake : x.take (x.length - 3) = y := by
      rw [hy]
      have hlen : (y ++ "```".data).length - 3 = y.length := by
        simp [List.length_append]
      rw [hlen, List.take_left]
    have hdrop : dropTrailFence x = y := by
      rw [dropTrailFence, if_pos hsuf, htake]
    obtain ⟨wa, wb, hy2, hwa, hwb⟩ := pyStrip_decomp y
    refine ⟨wa, wb, "```".data, ?_, hwa, hwb, Or.inl rfl⟩
    rw [hdrop, hy]
    conv_lhs => rw [hy2]
    try simp [List.append_assoc]
  · have hdrop : dropTrailFence x = x := by rw [dropTrailFence, if_neg hsuf]
    obtain ⟨wa, wb, hy2, hwa, hwb⟩ := pyStrip_decomp x
    refine ⟨wa, wb, [], ?_, hwa, hwb, Or.inr rfl⟩
    rw [hdrop]
    simpa using hy2

lemma sanitize_decomp (s : Str) :
    ∃ w1 m wa wb m2 w2,
      s = w1 ++ m ++ wa ++ _sanitize_json_response s ++ wb ++ m2 ++ w2 ∧
      (∀ c ∈ w1, pyIsSpace c) ∧ (∀ c ∈ wa, pyIsSpace c) ∧
      (∀ c ∈ wb, pyIsSpace c) ∧ (∀ c ∈ w2, pyIsSpace c) ∧
      (m = "```json".data ∨ m = "```".data ∨ m = []) ∧
      (m2 = "```".data ∨ m2 = []) := by
  obtain ⟨w1, w2, hs, hw1, hw2⟩ := pyStrip_decomp s
  by_cases h7 : ("```json".data).isPrefixOf (pyStrip s)
  · obtain ⟨x, hx⟩ := prefixOf_decomp _ _ h7
    have hlead : dropLeadFence (pyStrip s) = x := by
      have hlen7 : ("```json".data).length = 7 := rfl
      rw [dropLeadFence, if_pos h7, hx, ← hlen7]
      exact List.drop_left _ _
    obtain ⟨wa, wb, m2, hxdec, hwa, hwb, hm2⟩ := tail_part x
    refine ⟨w1, "```json".data, wa, wb, m2, w2, ?_, hw1, hwa, hwb, hw2, Or.inl rfl, hm2⟩
    have hsan : _sanitize_json_response s = pyStrip (dropTrailFence x) := by
      rw [_sanitize_json_response, hlead]
    rw [hsan, hs, hx]
    conv_lhs => rw [hxdec]
    simp [List.append_assoc]
  · by_cases h3 : ("```".data).isPrefixOf (pyStrip s)
    · obtain ⟨x, hx⟩ := prefixOf_decomp _ _ h3
      have hlead : dropLeadFence (pyStrip s) = x := by
        have hlen3 : ("```".data).length = 3 := rfl
        rw [dropLeadFence, if_neg h7, if_pos h3, hx, ← hlen3]
        exact List.drop_left _ _
      obtain ⟨wa, wb, m2, hxdec, hwa, hwb, hm2⟩ := tail_part x
      refine ⟨w1, "```".data, wa, wb, m2, w2, ?_, hw1, hwa, hwb, hw2,
        Or.inr (Or.inl rfl), hm2⟩
      have hsan : _sanitize_json_response s = pyStrip (dropTrailFence x) := by
        rw [_sanitize_json_response, hlead]
      rw [hsan, hs, hx]
      conv_lhs => rw [hxdec]
      simp [List.append_assoc]
    · have hlead : dropLeadFence (pyStrip s) = pyStrip s := by
        rw [dropLeadFence, if_neg h7, if_neg h3]
      obtain ⟨wa, wb, m2, hxdec, hwa, hwb, hm2⟩ := tail_part (pyStrip s)
      refine ⟨w1, [], wa, wb, m2, w2, ?_, hw1, hwa, hwb, hw2,
        Or.inr (Or.inr rfl), hm2⟩
      have hsan : _sanitize_json_response s = pyStrip (dropTrailFence (pyStrip s)) := by
        rw [_sanitize_json_response, hlead]
      conv_lhs => rw [hs]
      conv_lhs => rw [hxdec]
      rw [hsan]
      try simp [List.append_assoc]

lemma sanitize_idem (s : Str) (h1 : pyStrip s = s)
    (h2 : ("```".data).isPrefixOf s = false)
    (h3 : ("```".data).isSuffixOf s = false) :
    _sanitize_json_response s = s := by
  have h2' : ¬ ("```json".data).isPrefixOf s = true := by
    intro hq
    obtain ⟨t, ht⟩ := prefixOf_decomp _ _ hq
    have hpre : ("```".data).isPrefixOf s = true := by
      rw [ht, show ("```json".data) = "```".data ++ "json".data from rfl,
        List.append_assoc]
      exact isPrefixOf_append_self _ _
    rw [h2] at hpre
    exact absurd hpre (by decide)
  unfold _sanitize_json_response
  rw [h1, dropLeadFence, if_neg h2', if_neg (by simp [h2]), dropTrailFence,
    if_neg (by simp [h3])]
  exact h1

lemma extractLoop_no_brace (valid : Str → Bool) (text : Str) :
    ∀ (l : Str) (i : Nat) (b : Int), '{' ∉ l →
      extractLoop valid text l i b (-1) = none := by
  intro l
  induction l with
  | nil => intro i b _; rfl
  | cons c cs ih =>
    intro i b hmem
    have hc : ¬ c = '{' := fun h => hmem (h ▸ List.mem_cons_self c cs)
    have hcs : '{' ∉ cs := fun h => hmem (List.mem_cons_of_mem c h)
    rw [extractLoop, if_neg hc]
    by_cases hc2 : c = '}'
    · rw [if_pos hc2, if_neg (fun hand => hand.2 rfl)]
      exact ih _ _ hcs
    · rw [if_neg hc2]
      exact ih _ _ hcs

lemma no_brace_of_sanitize_empty {r : Str} (h : _sanitize_json_response r = []) :
    '{' ∉ r := by
  obtain ⟨w1, m, wa, wb, m2, w2, hdec, hw1, hwa, hwb, hw2, hm, hm2⟩ := sanitize_decomp r
  rw [h] at hdec
  intro hmem
  rw [hdec] at hmem
  simp only [List.mem_append, List.append_nil, List.nil_append,
    List.not_mem_nil, or_false, false_or] at hmem
  rcases hmem with ((((hq | hq) | hq) | hq) | hq) | hq
  · exact absurd (hw1 _ hq) (by decide)
  · rcases hm with rfl | rfl | rfl
    · exact absurd hq (by decide)
    · exact absurd hq (by decide)
    · exact absurd hq (by decide)
  · exact absurd (hwa _ hq) (by decide)
  · exact absurd (hwb _ hq) (by decide)
  · rcases hm2 with rfl | rfl
    · exact absurd hq (by decide)
    · exact absurd hq (by decide)
  · exact absurd (hw2 _ hq) (by decide)

lemma handler_err_of_no_extract {response cleaned : Str} {e : JErr}
    (hk : keywordTriggers e = false)
    (hx : _extract_json_from_text response = none) :
    jsonExceptHandler response cleaned e = .error e := by
  simp only [jsonExceptHandler, hk, Bool.false_eq_true, if_false, hx]

lemma sanitize_empty_parse_failure {r : Str} (h : _sanitize_json_response r = []) :
    ∃ e, generate_json_completion_post r = .error e := by
  have hnb : '{' ∉ r := no_brace_of_sanitize_empty h
  have hx : _extract_json_from_text r = none :=
    extractLoop_no_brace jsonValid r r 0 0 hnb
  by_cases hb : (r.isEmpty || (pyStrip r).isEmpty) = true
  · refine ⟨.emptyResponse, ?_⟩
    simp only [generate_json_completion_post, if_pos hb]
    exact handler_err_of_no_extract rfl hx
  · refine ⟨.emptyAfterSanitize, ?_⟩
    simp only [generate_json_completion_post, if_neg hb, h]
    rw [if_pos (by decide)]
    exact handler_err_of_no_extract rfl hx

/-- Claim C7: `_sanitize_json_response` removes only surrounding whitespace,
at most one leading fence marker and at most one trailing fence marker; it
is the identity on fence-free whitespace-trimmed strings; and a response
whose sanitized form is empty makes `generate_json_completion` raise a
parse failure rather than return it. -/
theorem sanitize_fence_and_empty :
    (∀ s : Str, ∃ w1 m wa wb m2 w2,
      s = w1 ++ m ++ wa ++ _sanitize_json_response s ++ wb ++ m2 ++ w2 ∧
      (∀ c ∈ w1, pyIsSpace c) ∧ (∀ c ∈ wa, pyIsSpace c) ∧
      (∀ c ∈ wb, pyIsSpace c) ∧ (∀ c ∈ w2, pyIsSpace c) ∧
      (m = "```json".data ∨ m = "```".data ∨ m = []) ∧
      (m2 = "```".data ∨ m2 = [])) ∧
    (∀ s : Str, pyStrip s = s → ("```".data).isPrefixOf s = false →
      ("```".data).isSuffixOf s = false → _sanitize_json_response s = s) ∧
    (∀ r : Str, _sanitize_json_response r = [] →
      ∃ e, generate_json_completion_post r = .error e) :=
  ⟨sanitize_decomp, sanitize_idem, fun _ h => sanitize_empty_parse_failure h⟩
